import Mathlib

/-!
Shallow embedding of the contact-email crawler (`script.py`) and proofs about
its specification claims.

The embedding covers:
* `GoogleSearchAPI._get_date_ranges`, `_search_with_date_range`, `search_domain`
  (query planner with date windows, pagination, url dedup);
* `WebCrawler.extract_emails`, `find_contact_pages`, `crawl_page`
  (email extraction filter, contact-page candidate discovery, the per-URL crawl
  state machine);
* `MongoDBHandler.save_result` (idempotent upsert of `(url, email)` records).

External collaborators (the HTTP transport, the headless browser, the HTML
parser and the Mongo client) are modelled as explicit parameters: a `Service`
function delivering raw search responses, and a `World` structure delivering
fetch outcomes and parsed links.  Machine-level details (wall-clock sleeps,
logging) are not modelled.  Python exceptions are modelled with `Except` /
outcome datatypes; Python dict keys that are present only on some paths are
modelled with `Option`.
-/

namespace Crawler

/-! ### String helpers (models of Python `in`, `str.lower`, `urllib.parse`) -/

/-- Model of Python's substring test `sub in s` on char lists. -/
def listContains (sub : List Char) : List Char → Bool
  | [] => sub.isEmpty
  | c :: rest => sub.isPrefixOf (c :: rest) || listContains sub rest

/-- Model of Python's `sub in s` for strings. -/
def strContains (s sub : String) : Bool := listContains sub.data s.data

/-- Model of Python's `str.lower` (`Char.toLower` on every character). -/
def strLower (s : String) : String := ⟨s.data.map Char.toLower⟩

/-- Model of Python's `str.startswith`. -/
def strStartsWith (s p : String) : Bool := p.data.isPrefixOf s.data

/-- Split a char list at the first occurrence of `marker`, returning the part
before it and the part after it, or `none` when `marker` does not occur. -/
def splitMarker (marker : List Char) : List Char → Option (List Char × List Char)
  | [] => none
  | c :: rest =>
    if marker.isPrefixOf (c :: rest) then some ([], (c :: rest).drop marker.length)
    else
      match splitMarker marker rest with
      | none => none
      | some (pre, post) => some (c :: pre, post)

/-- Model of `urllib.parse.urlparse(url).netloc`: the authority component of an
absolute URL (text between `"://"` and the next `/`, `?` or `#`); empty for
scheme-less references. -/
def netloc (url : String) : String :=
  match splitMarker "://".data url.data with
  | some (_, post) => ⟨post.takeWhile (fun c => c ≠ '/' && c ≠ '?' && c ≠ '#')⟩
  | none => ""

/-- The scheme of an absolute URL (text before the first `"://"`). -/
def urlScheme (url : String) : String :=
  match splitMarker "://".data url.data with
  | some (pre, _) => ⟨pre⟩
  | none => ""

/-- The base URL up to and including the last `/` of its path (used to resolve
relative references). -/
def urlDir (url : String) : String :=
  match (url.data.reverse.dropWhile (fun c => c ≠ '/')).reverse with
  | [] => url ++ "/"
  | l => ⟨l⟩

/-- Model of `urllib.parse.urljoin(base, ref)` for the cases the crawler
exercises: an already-absolute `ref` is returned as-is, a root-relative `ref`
(starting with `/`) replaces the base's path, and any other `ref` is resolved
against the base's directory. -/
def urljoin (base ref : String) : String :=
  if strContains ref "://" then ref
  else if strStartsWith ref "/" then urlScheme base ++ "://" ++ netloc base ++ ref
  else urlDir base ++ ref

/-- Model of Python's `list(set(l))` for string lists: drop duplicates (Python's
set iteration order is unspecified; the model keeps the last occurrence of each
element, matching `List.dedup`'s equations). -/
def listSet : List String → List String
  | [] => []
  | x :: xs =>
    let d := listSet xs
    if d.contains x then d else x :: d

/-! ### `WebCrawler.extract_emails` -/

/-- Characters of the class `[a-zA-Z0-9._%+-]` allowed in the local part of
the email regex. -/
def isLocalChar (c : Char) : Bool :=
  c.isAlphanum || c = '.' || c = '_' || c = '%' || c = '+' || c = '-'

/-- Characters of the class `[a-zA-Z0-9.-]` allowed in the domain part of
the email regex. -/
def isDomainChar (c : Char) : Bool :=
  c.isAlphanum || c = '.' || c = '-'

/-- Attempt to match `self.email_pattern` (the regex
`[a-zA-Z0-9._%+-]+@[a-zA-Z0-9.-]+\.[a-zA-Z]{2,}`) at the head of `l`:
the local part is the maximal run of local characters, followed by `@`,
followed by a maximal run of domain characters inside which the engine
backtracks to the rightmost `.` that is followed by at least two letters.
Returns the matched chars and the remaining input, or `none`. -/
def matchEmailAt (l : List Char) : Option (List Char × List Char) :=
  let local_ := l.takeWhile isLocalChar
  let rest := l.drop local_.length
  if local_.isEmpty then none
  else
    match rest with
    | '@' :: afterAt =>
      let dom := afterAt.takeWhile isDomainChar
      let afterDom := afterAt.drop dom.length
      -- find the rightmost index k of dom with dom[k] = '.' followed by ≥ 2 letters
      let candidates := (List.range dom.length).filter (fun k =>
        1 ≤ k && dom.getD k ' ' = '.' &&
        2 ≤ ((dom.drop (k+1)).takeWhile (fun c => c.isAlpha)).length)
      match candidates.max? with
      | none => none
      | some k =>
        let tld := (dom.drop (k+1)).takeWhile (fun c => c.isAlpha)
        let matched := local_ ++ '@' :: (dom.take k) ++ '.' :: tld
        let leftover := (dom.drop (k + 1 + tld.length)) ++ afterDom
        some (matched, leftover)
    | _ => none

/-- Model of `self.email_pattern.findall(text)`: scan left to right, emit each
non-overlapping match, advance one character after a failed attempt. -/
def findallEmails (fuel : Nat) (l : List Char) : List String :=
  match fuel with
  | 0 => []
  | fuel + 1 =>
    match l with
    | [] => []
    | c :: rest =>
      match matchEmailAt (c :: rest) with
      | some (m, leftover) => String.mk m :: findallEmails fuel leftover
      | none => findallEmails fuel rest

/-- The fixed denylist of placeholder tokens in `extract_emails`. -/
def emailDenylist : List String := ["example", "domain", "email", "user"]

/-- Model of `WebCrawler.extract_emails`: regex findall, then drop matches whose
lowercase form contains a denylisted token, drop matches shorter than 6
characters, and deduplicate (`list(set(filtered_emails))`; the model keeps a
canonical order, Python's set order being unspecified). -/
def extract_emails (text : String) : List String :=
  let potential_emails := findallEmails text.length text.data
  let filtered_emails := potential_emails.filter (fun email =>
    !(emailDenylist.any (fun x => strContains (strLower email) x)) &&
    !(email.length < 6))
  listSet filtered_emails

/-! ### `WebCrawler.find_contact_pages` and `crawl_page` -/

/-- The fixed keyword list `self.contact_keywords`. -/
def contact_keywords : List String :=
  ["contact", "about", "team", "support", "help", "reach", "connect",
   "get in touch", "email us", "write to us", "contact us"]

/-- The fixed conventional path list `self.contact_paths`. -/
def contact_paths : List String :=
  ["/contact", "/about", "/team", "/support", "/help",
   "/contact-us", "/about-us", "/get-in-touch"]

/-- Model of `set.add`: Python set membership as list membership.  The model
list records insertion order, but a CPython `set`'s iteration order is
hash-randomized and unrelated to it (see `World.iterOrder`). -/
def setAdd (l : List String) (x : String) : List String :=
  if l.contains x then l else l ++ [x]

/-- One `<a href=...>` anchor of the parsed page: its `href` attribute and its
text content. -/
structure Link where
  href : String
  text : String
deriving DecidableEq

/-- Model of `WebCrawler.find_contact_pages(soup, base_url)`: the membership content of
the returned `contact_urls` set — conventional paths resolved against
`base_url` and same-domain filtered, plus every page link whose lowercased text
contains a contact keyword, resolved and same-domain filtered.  `links` stands
for `soup.find_all('a', href=True)`. -/
def find_contact_pages (links : List Link) (base_url : String) : List String :=
  let base_domain := netloc base_url
  let withPaths := contact_paths.foldl (fun contact_urls path =>
    let full_url := urljoin base_url path
    if netloc full_url = base_domain then setAdd contact_urls full_url
    else contact_urls) []
  links.foldl (fun contact_urls link =>
    let href := link.href
    let text := strLower link.text
    if contact_keywords.any (fun keyword => strContains text keyword) then
      let full_url :=
        if strStartsWith href "/" then urljoin base_url href
        else if strStartsWith href "http" then href
        else urljoin base_url href
      if netloc full_url = base_domain then setAdd contact_urls full_url
      else contact_urls
    else contact_urls) withPaths

/-- Outcome of navigating the browser page to a URL (`page.goto` followed by
`wait_for_load_state` and `page.content()`): the navigation can raise an
exception, return no response (`None`), or deliver the rendered content. -/
inductive FetchOutcome where
  | raises (msg : String)
  | noResponse
  | ok (content : String)
deriving DecidableEq

/-- The external world one `crawl_page` call runs in: the browser launch can
raise, each navigation has a fixed outcome, the HTML parser exposes the page's
anchors, and `iterOrder` is the (hash-dependent, hence arbitrary) order in
which Python iterates the `contact_urls` set — modelled as an arbitrary
function of the set's insertion-ordered membership list. -/
structure World where
  launchError : Option String
  fetch : String → FetchOutcome
  parseLinks : String → List Link
  iterOrder : List String → List String

/-- The dict returned by `WebCrawler.crawl_page`.  Keys that are present only
on some paths (`error`, `contact_pages_checked`) are modelled with `Option`:
`none` means the key is absent from the dict. -/
structure CrawlResult where
  url : String
  emails : List String
  error : Option String
  contact_pages_checked : Option (List String)
deriving DecidableEq

/-- The contact-page candidate loop of `crawl_page` (the `for contact_url in
contact_urls:` loop): returns the final `emails` and `visited_urls` lists.  A
candidate already visited is skipped; a navigation exception is swallowed and
the loop continues (the URL is *not* added to `visited_urls`); a `None`
response likewise falls through without marking; a successful fetch either
ends the loop with the extracted emails (`break`, the succeeding URL not
marked) or marks the URL visited and continues. -/
def crawlCandidates (w : World) : List String → List String → List String →
    List String × List String
  | [], visited_urls, emails => (emails, visited_urls)
  | contact_url :: rest, visited_urls, emails =>
    if visited_urls.contains contact_url then crawlCandidates w rest visited_urls emails
    else
      match w.fetch contact_url with
      | .raises _ => crawlCandidates w rest visited_urls emails
      | .noResponse => crawlCandidates w rest visited_urls emails
      | .ok contact_content =>
        let contact_emails := extract_emails contact_content
        if contact_emails.isEmpty then
          crawlCandidates w rest (visited_urls ++ [contact_url]) emails
        else (emails ++ contact_emails, visited_urls)

/-- The error dict built by `crawl_page`'s outer `except Exception` handler:
a message containing `"timeout"` (case-insensitive) is reported as a timeout. -/
def crawlErrorResult (url msg : String) : CrawlResult :=
  if strContains (strLower msg) "timeout" then
    ⟨url, [], some ("Timeout after 30 seconds: " ++ msg), none⟩
  else ⟨url, [], some msg, none⟩

/-- Model of `WebCrawler.crawl_page(url)`: fetch the seed page (launch or navigation
failures produce an error dict with empty `emails`; a `None` response produces
the `'Failed to load page'` error dict); extract emails from the seed content;
when none are found, iterate the contact-page candidates; finally return the
dict with deduplicated emails and `contact_pages_checked = list(visited_urls)
if not emails else []`. -/
def crawl_page (w : World) (url : String) : CrawlResult :=
  match w.launchError with
  | some msg => crawlErrorResult url msg
  | none =>
    match w.fetch url with
    | .raises msg => crawlErrorResult url msg
    | .noResponse => ⟨url, [], some "Failed to load page", none⟩
    | .ok content =>
      let emails := extract_emails content
      let step :=
        if emails.isEmpty then
          let contact_urls := find_contact_pages (w.parseLinks content) url
          crawlCandidates w (w.iterOrder contact_urls) [] emails
        else (emails, [])
      ⟨url, listSet step.1, none, some (if step.1.isEmpty then step.2 else [])⟩

/-! ### `GoogleSearchAPI`: date ranges, one search request, `search_domain` -/

/-- The constant `self.max_results_per_page = 10` (Google's maximum per request). -/
def max_results_per_page : Nat := 10

/-- The constant `self.max_total_results = 100` (Google's maximum total results per query,
the per-query result ceiling). -/
def max_total_results : Nat := 100

/-- Model of `GoogleSearchAPI._get_date_ranges(days_back)`: dates are modelled as `Int`
day numbers (`today`, `today - 1`, ...), sidestepping `strftime` formatting.
Each generated range is a single day `(d, d)`, walking backward from today. -/
def get_date_ranges (today : Int) (days_back : Nat) : List (Int × Int) :=
  (List.range days_back).map (fun i => ((today : Int) - i, (today : Int) - i))

/-- One raw item of the search service's JSON `items` array; each field may be
missing from the item dict. -/
structure RawItem where
  link : Option String
  title : Option String
  snippet : Option String
deriving DecidableEq

/-- One raw HTTP exchange with the search service, as `_search_with_date_range`
sees it: a transport failure (`requests.exceptions.RequestException`, which
since requests 2.27 also covers `response.json()` raising on an invalid JSON
body), or a decoded payload whose `items` key may be absent. -/
inductive RawResponse where
  | transportError
  | invalidJson
  | payload (items : Option (List RawItem))

/-- The external search service: domain, window start/end, start index ↦ raw
response. -/
def Service := String → Int → Int → Nat → RawResponse

/-- One emitted search result dict (`url`, `title`, `snippet`, `date_range`). -/
structure SearchHit where
  url : String
  title : String
  snippet : String
  date_range : Int × Int
deriving DecidableEq

/-- The list comprehension of `_search_with_date_range`: convert each raw item
with `item['link']` / `item['title']` / `item.get('snippet', '')`; a missing
`link` or `title` raises `KeyError` at the first offending item. -/
def itemsToHits (start_date end_date : Int) : List RawItem → Except String (List SearchHit)
  | [] => .ok []
  | item :: rest =>
    match item.link, item.title with
    | some link, some title =>
      match itemsToHits start_date end_date rest with
      | .error e => .error e
      | .ok hits => .ok (⟨link, title, item.snippet.getD "", (start_date, end_date)⟩ :: hits)
    | _, _ => .error "KeyError"

/-- Model of `GoogleSearchAPI._search_with_date_range(domain, start, end, start_index)`:
transport failures (and, in modern `requests`, invalid-JSON bodies) are caught
by the `except requests.exceptions.RequestException` clause and return `[]`;
a payload without `items` returns `[]`; otherwise each item is converted by
`itemsToHits` — a missing `link` or `title` raises an *uncaught* `KeyError`,
modelled as `.error`. -/
def search_with_date_range (svc : Service) (domain : String) (start_date end_date : Int)
    (start_index : Nat) : Except String (List SearchHit) :=
  match svc domain start_date end_date start_index with
  | .transportError => .ok []
  | .invalidJson => .ok []
  | .payload none => .ok []
  | .payload (some items) => itemsToHits start_date end_date items

/-- The inner `for result in results:` loop of `search_domain`: append each hit
whose `url` is not yet in `seen_urls` (set membership modelled on a list). -/
def addNewResults (results : List SearchHit) (seen_urls : List String)
    (all_results : List SearchHit) : List String × List SearchHit :=
  match results with
  | [] => (seen_urls, all_results)
  | result :: rest =>
    if seen_urls.contains result.url then addNewResults rest seen_urls all_results
    else addNewResults rest (seen_urls ++ [result.url]) (all_results ++ [result])

/-- The `while start_index <= 100:` pagination loop of `search_domain` for one
date window.  Returns the updated `seen_urls` and `all_results` together with
the list of `start_index` values actually requested, or propagates an uncaught
exception from `search_with_date_range`.  The loop breaks on an empty result
list, or after a page smaller than `max_results_per_page`, and otherwise
advances `start_index` by `max_results_per_page`. -/
def paginateWindow (svc : Service) (domain : String) (start_date end_date : Int)
    (start_index : Nat) (seen_urls : List String) (all_results : List SearchHit) :
    Except String (List String × List SearchHit × List Nat) :=
  if _h : start_index ≤ max_total_results then
    match search_with_date_range svc domain start_date end_date start_index with
    | .error e => .error e
    | .ok results =>
      if results.isEmpty then .ok (seen_urls, all_results, [start_index])
      else
        let (seen', all') := addNewResults results seen_urls all_results
        if results.length < max_results_per_page then .ok (seen', all', [start_index])
        else
          match paginateWindow svc domain start_date end_date
              (start_index + max_results_per_page) seen' all' with
          | .error e => .error e
          | .ok (seen'', all'', offs) => .ok (seen'', all'', start_index :: offs)
  else .ok (seen_urls, all_results, [])
termination_by max_total_results + 1 - start_index
decreasing_by simp only [max_total_results, max_results_per_page] at *; omega

/-- The outer `for start_date, end_date in date_ranges:` loop of
`search_domain`, threading the global `seen_urls` set and `all_results` list
through every window; an uncaught exception aborts the whole run. -/
def searchWindows (svc : Service) (domain : String) :
    List (Int × Int) → List String → List SearchHit →
    Except String (List String × List SearchHit)
  | [], seen_urls, all_results => .ok (seen_urls, all_results)
  | (start_date, end_date) :: ranges, seen_urls, all_results =>
    match paginateWindow svc domain start_date end_date 1 seen_urls all_results with
    | .error e => .error e
    | .ok (seen', all', _) => searchWindows svc domain ranges seen' all'

/-- Model of `GoogleSearchAPI.search_domain(domain, days_back)`: generate the daily date
ranges and run the pagination loop over each, starting every window at
`start_index = 1` with the run-global `seen_urls` set. -/
def search_domain (svc : Service) (domain : String) (today : Int) (days_back : Nat) :
    Except String (List SearchHit) :=
  match searchWindows svc domain (get_date_ranges today days_back) [] [] with
  | .error e => .error e
  | .ok (_, all_results) => .ok all_results

/-! ### `MongoDBHandler.save_result` -/

/-- One persisted document of the `scraped_sites` collection. -/
structure ContactRecord where
  url : String
  email : String
  crawled_at : Int
deriving DecidableEq

/-- Model of the Mongo upsert issued by `save_result` — an `update_one` call
with the natural key as filter, a set-document payload and the upsert flag:
update the first document matching the `(url, email)` key, or insert a fresh
document when no match exists. -/
def update_one_upsert (store : List ContactRecord) (url email : String) (now : Int) :
    List ContactRecord :=
  match store with
  | [] => [⟨url, email, now⟩]
  | r :: rs =>
    if r.url = url ∧ r.email = email then ⟨url, email, now⟩ :: rs
    else r :: update_one_upsert rs url email now

/-- The `{'url': ..., 'crawl_result': ...}` dict handed to `save_result`. -/
structure ProcessedResult where
  url : String
  crawl_result : CrawlResult

/-- Model of `MongoDBHandler.save_result(result)`: skip when the crawl result carries an
`error` key or an empty `emails` list; otherwise upsert one document per email,
keyed by `(url, email)`, stamped with the current time. -/
def save_result (store : List ContactRecord) (result : ProcessedResult) (now : Int) :
    List ContactRecord :=
  if result.crawl_result.error.isSome ∨ result.crawl_result.emails = [] then store
  else
    result.crawl_result.emails.foldl
      (fun st email => update_one_upsert st result.url email now) store

/-! ### Helper lemmas -/

theorem listSet_cons (a : String) (l : List String) :
    listSet (a :: l) = if a ∈ listSet l then listSet l else a :: listSet l := by
  simp [listSet]

theorem mem_listSet {l : List String} {x : String} : x ∈ listSet l ↔ x ∈ l := by
  induction l generalizing x with
  | nil => simp [listSet]
  | cons a l ih =>
    rw [listSet_cons]
    by_cases h : a ∈ listSet l
    · rw [if_pos h, ih, List.mem_cons]
      have ha : a ∈ l := ih.mp h
      exact ⟨fun hx => .inr hx, fun hx => hx.elim (fun e => e ▸ ha) id⟩
    · rw [if_neg h, List.mem_cons, List.mem_cons, ih]

theorem listSet_nodup (l : List String) : (listSet l).Nodup := by
  induction l with
  | nil => simp [listSet]
  | cons a l ih =>
    rw [listSet_cons]
    by_cases h : a ∈ listSet l
    · rw [if_pos h]; exact ih
    · rw [if_neg h]; exact List.nodup_cons.mpr ⟨h, ih⟩

theorem listSet_of_nodup {l : List String} (h : l.Nodup) : listSet l = l := by
  induction l with
  | nil => rfl
  | cons a l ih =>
    have ha : a ∉ l := (List.nodup_cons.mp h).1
    have ih' := ih (List.nodup_cons.mp h).2
    rw [listSet_cons, ih', if_neg ha]

theorem listSet_idem (l : List String) : listSet (listSet l) = listSet l :=
  listSet_of_nodup (listSet_nodup l)

theorem crawlErrorResult_emails (url msg : String) : (crawlErrorResult url msg).emails = [] := by
  unfold crawlErrorResult; split <;> rfl

theorem crawlErrorResult_url (url msg : String) : (crawlErrorResult url msg).url = url := by
  unfold crawlErrorResult; split <;> rfl

theorem crawlErrorResult_error (url msg : String) : (crawlErrorResult url msg).error.isSome := by
  unfold crawlErrorResult; split <;> rfl

/-! ### Claim theorems -/

/-- C4: For every input text, every string returned by `extract_emails` is
free of the denylist tokens `example`, `domain`, `email`, `user` as
case-insensitive substrings and is at least 6 characters long, and the
returned list contains no exact duplicates. -/
theorem claim_C4_extract_emails_filter (text : String) :
    (∀ e ∈ extract_emails text,
      (∀ tok ∈ emailDenylist, strContains (strLower e) tok = false) ∧ 6 ≤ e.length) ∧
    (extract_emails text).Nodup := by
  constructor
  · intro e he
    have hf : e ∈ (findallEmails text.length text.data).filter (fun email =>
        !(emailDenylist.any (fun x => strContains (strLower email) x)) &&
        !(email.length < 6)) := by
      simpa [extract_emails, mem_listSet] using he
    have hp := List.of_mem_filter hf
    have h1 : (emailDenylist.any (fun x => strContains (strLower e) x)) = false := by
      rcases Bool.and_eq_true .. |>.mp hp with ⟨ha, _⟩
      simpa using ha
    have h2 : ¬ (e.length < 6) := by
      rcases Bool.and_eq_true .. |>.mp hp with ⟨_, hb⟩
      simpa using hb
    refine ⟨?_, by omega⟩
    intro tok htok
    have := (List.any_eq_false.mp h1) tok htok
    simpa using this
  · exact listSet_nodup _

/-- C4 witness: The filter guarantees, checked on the concrete extraction
from `"Reach hello@acme.test"`. -/
theorem claim_C4_witness :
    (∀ tok ∈ emailDenylist, strContains (strLower "hello@acme.test") tok = false) ∧
    6 ≤ ("hello@acme.test" : String).length :=
  (claim_C4_extract_emails_filter "Reach hello@acme.test").1 "hello@acme.test" (by decide)

/-- C2: For every world and URL, the `CrawlResult` returned by
`crawl_page` never carries both an `error` and a non-empty `emails` list:
either the `error` key is absent or `emails` is empty. -/
theorem claim_C2_error_emails_exclusive (w : World) (url : String) :
    (crawl_page w url).error = none ∨ (crawl_page w url).emails = [] := by
  cases hL : w.launchError with
  | some msg => right; simp [crawl_page, hL, crawlErrorResult_emails]
  | none =>
    cases hF : w.fetch url with
    | raises msg => right; simp [crawl_page, hL, hF, crawlErrorResult_emails]
    | noResponse => right; simp [crawl_page, hL, hF]
    | ok content => left; simp [crawl_page, hL, hF]

/-- C10: For every world and URL and on every outcome path (launch
failure, navigation failure, timeout, seed-page success, candidate success,
exhaustion), the dict returned by `crawl_page` has its `url` field equal to
the input URL (and structurally always carries an `emails` field). -/
theorem claim_C10_result_keyed_by_url (w : World) (url : String) :
    (crawl_page w url).url = url := by
  cases hL : w.launchError with
  | some msg => simp [crawl_page, hL, crawlErrorResult_url]
  | none =>
    cases hF : w.fetch url with
    | raises msg => simp [crawl_page, hL, hF, crawlErrorResult_url]
    | noResponse => simp [crawl_page, hL, hF]
    | ok content => simp [crawl_page, hL, hF]

/-- If the candidate loop started with accumulator `emails = []` ends with a
non-empty email list, some candidate in the list was fetched successfully and
its extraction is exactly that final list. -/
theorem crawlCandidates_success (w : World) (cands : List String) :
    ∀ visited, (crawlCandidates w cands visited []).1 ≠ [] →
      ∃ c cc, c ∈ cands ∧ w.fetch c = .ok cc ∧
        (crawlCandidates w cands visited []).1 = extract_emails cc := by
  induction cands with
  | nil => intro visited h; simp [crawlCandidates] at h
  | cons c rest ih =>
    intro visited h
    by_cases hv : c ∈ visited
    · rw [show crawlCandidates w (c :: rest) visited [] = crawlCandidates w rest visited []
        from by simp [crawlCandidates, hv]] at h ⊢
      obtain ⟨c', cc, hm, hf, he⟩ := ih visited h
      exact ⟨c', cc, List.mem_cons_of_mem _ hm, hf, he⟩
    · cases hf : w.fetch c with
      | raises msg =>
        rw [show crawlCandidates w (c :: rest) visited [] = crawlCandidates w rest visited []
          from by simp [crawlCandidates, hv, hf]] at h ⊢
        obtain ⟨c', cc, hm, hf', he⟩ := ih visited h
        exact ⟨c', cc, List.mem_cons_of_mem _ hm, hf', he⟩
      | noResponse =>
        rw [show crawlCandidates w (c :: rest) visited [] = crawlCandidates w rest visited []
          from by simp [crawlCandidates, hv, hf]] at h ⊢
        obtain ⟨c', cc, hm, hf', he⟩ := ih visited h
        exact ⟨c', cc, List.mem_cons_of_mem _ hm, hf', he⟩
      | ok cc =>
        by_cases hem : extract_emails cc = []
        · rw [show crawlCandidates w (c :: rest) visited [] =
              crawlCandidates w rest (visited ++ [c]) []
            from by simp [crawlCandidates, hv, hf, hem]] at h ⊢
          obtain ⟨c', cc', hm, hf', he⟩ := ih (visited ++ [c]) h
          exact ⟨c', cc', List.mem_cons_of_mem _ hm, hf', he⟩
        · refine ⟨c, cc, List.mem_cons_self .., hf, ?_⟩
          simp [crawlCandidates, hv, hf, hem]

/-- C1 counterexample world:  Seed page with no emails and a "Contact Us"
link to `/reach-us`; `/contact` loads but has no emails; `/reach-us` contains
`hello@acme.test`; every other candidate gets no response. -/
def seedContent1 : String := "<html>welcome, no mail here</html>"

def exWorld1 : World where
  launchError := none
  fetch := fun u =>
    if u = "http://acme.test" then .ok seedContent1
    else if u = "http://acme.test/contact" then .ok "<html>nothing</html>"
    else if u = "http://acme.test/reach-us" then .ok "Reach hello@acme.test"
    else .noResponse
  parseLinks := fun c => if c = seedContent1 then [⟨"/reach-us", "Contact Us"⟩] else []
  iterOrder := id

/-- C1 counterexample:  In `exWorld1` the candidate loop visits
`/contact` without success (internal `visited_urls` ends as
`["http://acme.test/contact"]`) before `/reach-us` succeeds, yet the returned
`CrawlResult` has `contact_pages_checked = some []`: the success path drops
the previously visited candidates, contradicting the claim that
`contactPagesChecked` equals exactly the candidates visited without success
before the succeeding one. -/
theorem claim_C1_counterexample :
    crawlCandidates exWorld1
        (exWorld1.iterOrder (find_contact_pages (exWorld1.parseLinks seedContent1)
          "http://acme.test")) [] [] =
      (["hello@acme.test"], ["http://acme.test/contact"]) ∧
    crawl_page exWorld1 "http://acme.test" =
      ⟨"http://acme.test", ["hello@acme.test"], none, some []⟩ := by
  decide

/-- C1 amended:  When the seed page yields no emails and the crawl ends
with a non-empty email list, the result terminates successfully (`error`
absent) with the emails extracted from some successfully fetched candidate
page — but `contact_pages_checked` is the *empty* list, not the set of
candidates visited without success before the succeeding one (the code
returns `[]` whenever `emails` is non-empty). -/
theorem claim_C1_candidate_success (w : World) (url content : String)
    (hL : w.launchError = none) (hF : w.fetch url = .ok content)
    (hE : extract_emails content = [])
    (hne : (crawl_page w url).emails ≠ []) :
    (crawl_page w url).error = none ∧
    (crawl_page w url).contact_pages_checked = some [] ∧
    ∃ c cc, c ∈ w.iterOrder (find_contact_pages (w.parseLinks content) url) ∧
      w.fetch c = .ok cc ∧ (crawl_page w url).emails = extract_emails cc := by
  have hshape : crawl_page w url =
      ⟨url,
       listSet (crawlCandidates w
         (w.iterOrder (find_contact_pages (w.parseLinks content) url)) [] []).1,
       none,
       some (if (crawlCandidates w
         (w.iterOrder (find_contact_pages (w.parseLinks content) url)) [] []).1.isEmpty
         then (crawlCandidates w
           (w.iterOrder (find_contact_pages (w.parseLinks content) url)) [] []).2
         else [])⟩ := by
    simp [crawl_page, hL, hF, hE]
  rw [hshape] at hne ⊢
  simp only [ne_eq] at hne
  have hstep : (crawlCandidates w
      (w.iterOrder (find_contact_pages (w.parseLinks content) url)) [] []).1 ≠ [] := by
    intro hc
    exact hne (by simp [hc, listSet])
  obtain ⟨c, cc, hm, hf, he⟩ := crawlCandidates_success w _ [] hstep
  have hemp : ((crawlCandidates w
      (w.iterOrder (find_contact_pages (w.parseLinks content) url)) [] []).1.isEmpty) = false := by
    simpa [List.isEmpty_iff] using hstep
  refine ⟨rfl, by simp [hemp], c, cc, hm, hf, ?_⟩
  simp only [he]
  have : extract_emails cc = listSet ((findallEmails cc.length cc.data).filter _) := rfl
  rw [show listSet (extract_emails cc) = extract_emails cc from ?_]
  · unfold extract_emails
    exact listSet_idem _

/-- Every URL in the candidate loop's final `visited_urls` either was already
visited or was fetched successfully with an empty extraction: failing
candidates are never marked visited. -/
theorem crawlCandidates_visited (w : World) (cands : List String) :
    ∀ visited emails x, x ∈ (crawlCandidates w cands visited emails).2 →
      x ∈ visited ∨ ∃ cc, w.fetch x = .ok cc ∧ extract_emails cc = [] := by
  induction cands with
  | nil => intro visited emails x hx; simp [crawlCandidates] at hx; exact .inl hx
  | cons c rest ih =>
    intro visited emails x hx
    by_cases hv : c ∈ visited
    · rw [show crawlCandidates w (c :: rest) visited emails = crawlCandidates w rest visited emails
        from by simp [crawlCandidates, hv]] at hx
      exact ih visited emails x hx
    · cases hf : w.fetch c with
      | raises msg =>
        rw [show crawlCandidates w (c :: rest) visited emails = crawlCandidates w rest visited emails
          from by simp [crawlCandidates, hv, hf]] at hx
        exact ih visited emails x hx
      | noResponse =>
        rw [show crawlCandidates w (c :: rest) visited emails = crawlCandidates w rest visited emails
          from by simp [crawlCandidates, hv, hf]] at hx
        exact ih visited emails x hx
      | ok cc =>
        by_cases hem : extract_emails cc = []
        · rw [show crawlCandidates w (c :: rest) visited emails =
              crawlCandidates w rest (visited ++ [c]) emails
            from by simp [crawlCandidates, hv, hf, hem]] at hx
          rcases ih (visited ++ [c]) emails x hx with hin | hok
          · rcases List.mem_append.mp hin with hin | hin
            · exact .inl hin
            · have : x = c := by simpa using hin
              subst this
              exact .inr ⟨cc, hf, hem⟩
          · exact .inr hok
        · rw [show crawlCandidates w (c :: rest) visited emails = (emails ++ extract_emails cc, visited)
            from by simp [crawlCandidates, hv, hf, hem]] at hx
          exact .inl hx

/-- C1 witness:  The amended claim applied to `exWorld1`. -/
theorem claim_C1_witness :
    (crawl_page exWorld1 "http://acme.test").error = none ∧
    (crawl_page exWorld1 "http://acme.test").contact_pages_checked = some [] ∧
    ∃ c cc,
      c ∈ exWorld1.iterOrder (find_contact_pages (exWorld1.parseLinks seedContent1)
        "http://acme.test") ∧
      exWorld1.fetch c = .ok cc ∧
      (crawl_page exWorld1 "http://acme.test").emails = extract_emails cc :=
  claim_C1_candidate_success exWorld1 "http://acme.test" seedContent1
    rfl (by decide) (by decide) (by decide)

/-- C6 counterexample world:  The seed page loads without emails or links;
the `/contact` candidate raises during navigation, `/about` loads with no
emails, and every other candidate gets no response. -/
def exWorld6 : World where
  launchError := none
  fetch := fun u =>
    if u = "http://acme.test" then .ok "just text"
    else if u = "http://acme.test/contact" then .raises "boom"
    else if u = "http://acme.test/about" then .ok ""
    else .noResponse
  parseLinks := fun _ => []
  iterOrder := id

/-- C6 counterexample:  In `exWorld6` the `/contact` candidate fails with
an exception; the crawl swallows the failure and continues, but the returned
`contact_pages_checked` is `["http://acme.test/about"]` — the failing
candidate is *not* counted, contradicting the claim that a failed candidate
URL is counted in `contactPagesChecked`. -/
theorem claim_C6_counterexample :
    exWorld6.fetch "http://acme.test/contact" = .raises "boom" ∧
    crawl_page exWorld6 "http://acme.test" =
      ⟨"http://acme.test", [], none, some ["http://acme.test/about"]⟩ := by
  decide

/-- C6 amended:  A failure fetching a contact-page candidate (exception or
no response) is swallowed and iteration continues with the next candidate, but
the failed candidate is *not* recorded in `contactPagesChecked` (only
candidates fetched successfully with an empty extraction are); and a crawl
whose browser launched and whose seed page fetched successfully never carries
an `error`, so candidate failures are never surfaced as the crawl's error. -/
theorem claim_C6_candidate_failure_swallowed (w : World) :
    (∀ c rest visited emails msg,
      (w.fetch c = .raises msg ∨ w.fetch c = .noResponse) →
      crawlCandidates w (c :: rest) visited emails = crawlCandidates w rest visited emails) ∧
    (∀ url content l, w.launchError = none → w.fetch url = .ok content →
      (crawl_page w url).contact_pages_checked = some l →
      ∀ x ∈ l, ∃ cc, w.fetch x = .ok cc ∧ extract_emails cc = []) ∧
    (∀ url content, w.launchError = none → w.fetch url = .ok content →
      (crawl_page w url).error = none) := by
  refine ⟨?_, ?_, ?_⟩
  · intro c rest visited emails msg hfail
    by_cases hv : c ∈ visited
    · simp [crawlCandidates, hv]
    · rcases hfail with hf | hf <;> simp [crawlCandidates, hv, hf]
  · intro url content l hL hF hcheck x hx
    by_cases hE : (extract_emails content).isEmpty
    · simp only [crawl_page, hL, hF, hE, if_pos] at hcheck
      set step := crawlCandidates w
        (w.iterOrder (find_contact_pages (w.parseLinks content) url)) [] (extract_emails content)
        with hstep
      by_cases hs : step.1.isEmpty
      · have hl : l = step.2 := by
          simp only [← hstep, hs, if_pos, Option.some_inj] at hcheck
          exact hcheck.symm
        subst hl
        rcases crawlCandidates_visited w _ [] (extract_emails content) x hx with hin | hok
        · simp at hin
        · exact hok
      · have hl : l = [] := by
          simp only [← hstep, hs, if_neg, Bool.false_eq_true, not_false_iff,
            Option.some_inj] at hcheck
          exact hcheck.symm
        subst hl
        simp at hx
    · simp only [crawl_page, hL, hF, hE, if_neg, Bool.false_eq_true, not_false_iff] at hcheck
      have hE' : (extract_emails content).isEmpty = false := by
        simpa using hE
      simp only [hE', Bool.false_eq_true, if_false, Option.some_inj] at hcheck
      have hl : l = [] := hcheck.symm
      subst hl
      simp at hx
  · intro url content hL hF
    simp [crawl_page, hL, hF]

/-- C6 witness:  The amended claim applied to `exWorld6`: the raising
candidate `/contact` is skipped without effect, `/about` is the only URL ever
reported as checked (fetched successfully, no emails), and the crawl's error
stays absent. -/
theorem claim_C6_witness :
    crawlCandidates exWorld6 ["http://acme.test/contact"] [] [] =
      crawlCandidates exWorld6 [] [] [] ∧
    (∃ cc, exWorld6.fetch "http://acme.test/about" = .ok cc ∧ extract_emails cc = []) ∧
    (crawl_page exWorld6 "http://acme.test").error = none :=
  ⟨(claim_C6_candidate_failure_swallowed exWorld6).1 "http://acme.test/contact" [] [] [] "boom"
      (.inl (by decide)),
   (claim_C6_candidate_failure_swallowed exWorld6).2.1 "http://acme.test" "just text"
      ["http://acme.test/about"] rfl (by decide) (by decide) "http://acme.test/about" (by decide),
   (claim_C6_candidate_failure_swallowed exWorld6).2.2 "http://acme.test" "just text"
      rfl (by decide)⟩

/-- Invariant of the planner's run state: the emitted hits have pairwise
distinct urls, and every emitted url is recorded in the seen-set. -/
def PlannerInv (seen_urls : List String) (all_results : List SearchHit) : Prop :=
  (all_results.map (·.url)).Nodup ∧ ∀ hit ∈ all_results, hit.url ∈ seen_urls

theorem addNewResults_inv (results : List SearchHit) :
    ∀ seen acc, PlannerInv seen acc →
      PlannerInv (addNewResults results seen acc).1 (addNewResults results seen acc).2 := by
  induction results with
  | nil => intro seen acc h; exact h
  | cons r rest ih =>
    intro seen acc h
    by_cases hr : r.url ∈ seen
    · rw [show addNewResults (r :: rest) seen acc = addNewResults rest seen acc from by
        simp [addNewResults, hr]]
      exact ih seen acc h
    · rw [show addNewResults (r :: rest) seen acc =
          addNewResults rest (seen ++ [r.url]) (acc ++ [r]) from by
        simp [addNewResults, hr]]
      apply ih
      obtain ⟨hnd, hsub⟩ := h
      constructor
      · rw [List.map_append]
        rw [List.nodup_append]
        refine ⟨hnd, List.nodup_singleton _, ?_⟩
        intro u hu hu'
        have : u = r.url := by simpa using hu'
        subst this
        obtain ⟨hit, hhit, hurl⟩ := List.mem_map.mp hu
        exact hr (hurl ▸ hsub hit hhit)
      · intro hit hm
        rcases List.mem_append.mp hm with hm | hm
        · exact List.mem_append.mpr (.inl (hsub hit hm))
        · have : hit = r := by simpa using hm
          subst this
          exact List.mem_append.mpr (.inr (by simp))

theorem paginateWindow_inv (svc : Service) (domain : String) (sd ed : Int)
    (start : Nat) (seen : List String) (acc : List SearchHit) :
    PlannerInv seen acc →
    ∀ s a offs, paginateWindow svc domain sd ed start seen acc = .ok (s, a, offs) →
    PlannerInv s a := by
  induction start, seen, acc using paginateWindow.induct svc domain sd ed with
  | case1 start seen acc hle e hsearch =>
    intro _ s a offs heq
    rw [paginateWindow.eq_def] at heq
    simp [hle, hsearch] at heq
  | case2 start seen acc hle results hsearch hempty =>
    intro hinv s a offs heq
    rw [paginateWindow.eq_def] at heq
    simp only [hle, dif_pos, hsearch, hempty, if_pos, Except.ok.injEq, Prod.mk.injEq] at heq
    obtain ⟨h1, h2, _⟩ := heq
    exact h1 ▸ h2 ▸ hinv
  | case3 start seen acc hle results hsearch hempty seen' all' hadd hsmall =>
    intro hinv s a offs heq
    rw [paginateWindow.eq_def] at heq
    simp [hle, hsearch, hempty, hadd, hsmall] at heq
    obtain ⟨h1, h2, _⟩ := heq
    have := addNewResults_inv results seen acc hinv
    rw [hadd] at this
    exact h1 ▸ h2 ▸ this
  | case4 start seen acc hle results hsearch hempty seen' all' hadd hsmall e hrec ih =>
    intro _ s a offs heq
    rw [paginateWindow.eq_def] at heq
    simp [hle, hsearch, hempty, hadd, hsmall, hrec] at heq
  | case5 start seen acc hle results hsearch hempty seen' all' hadd hsmall s'' a'' offs' hrec ih =>
    intro hinv s a offs heq
    rw [paginateWindow.eq_def] at heq
    simp [hle, hsearch, hempty, hadd, hsmall, hrec] at heq
    obtain ⟨h1, h2, _⟩ := heq
    have hinv' := addNewResults_inv results seen acc hinv
    rw [hadd] at hinv'
    exact h1 ▸ h2 ▸ ih hinv' s'' a'' offs' hrec
  | case6 start seen acc hle =>
    intro hinv s a offs heq
    rw [paginateWindow.eq_def] at heq
    simp [hle] at heq
    obtain ⟨h1, h2, _⟩ := heq
    exact h1 ▸ h2 ▸ hinv

theorem searchWindows_inv (svc : Service) (domain : String) :
    ∀ (ranges : List (Int × Int)) (seen : List String) (acc : List SearchHit),
      PlannerInv seen acc →
      ∀ s a, searchWindows svc domain ranges seen acc = .ok (s, a) →
      PlannerInv s a := by
  intro ranges
  induction ranges with
  | nil =>
    intro seen acc hinv s a heq
    simp only [searchWindows, Except.ok.injEq, Prod.mk.injEq] at heq
    exact heq.1 ▸ heq.2 ▸ hinv
  | cons r rest ih =>
    intro seen acc hinv s a heq
    obtain ⟨sd, ed⟩ := r
    simp only [searchWindows] at heq
    cases hp : paginateWindow svc domain sd ed 1 seen acc with
    | error e => rw [hp] at heq; cases heq
    | ok out =>
      obtain ⟨s', a', offs⟩ := out
      rw [hp] at heq
      exact ih s' a' (paginateWindow_inv svc domain sd ed 1 seen acc hinv s' a' offs hp) s a heq

/-- C3: For every service behaviour, domain and `days_back`, when
`search_domain` completes, the emitted sequence contains no two hits with the
same `url`: the seen-set is global across all date windows and pages. -/
theorem claim_C3_no_duplicate_urls (svc : Service) (domain : String) (today : Int)
    (days_back : Nat) (hits : List SearchHit)
    (h : search_domain svc domain today days_back = .ok hits) :
    (hits.map (·.url)).Nodup := by
  unfold search_domain at h
  cases hw : searchWindows svc domain (get_date_ranges today days_back) [] [] with
  | error e => rw [hw] at h; cases h
  | ok out =>
    obtain ⟨s, a⟩ := out
    rw [hw] at h
    have hinv : PlannerInv ([] : List String) ([] : List SearchHit) := by
      constructor
      · simp
      · intro hit hm; simp at hm
    have := searchWindows_inv svc domain (get_date_ranges today days_back) [] [] hinv s a hw
    have ha : hits = a := by
      simpa using h.symm
    exact ha ▸ this.1

/-- A single-page service used to witness the planner claims: one item on the
first request of each window, nothing afterwards. -/
def svcOnePage : Service := fun _ _ _ start_index =>
  if start_index = 1 then
    .payload (some [⟨some "http://a/x", some "title", some "snip"⟩])
  else .payload none

/-- C3 witness:  A one-window run of `search_domain` over `svcOnePage`
emits exactly one hit, and the claim instantiates to its url list being
duplicate-free. -/
theorem claim_C3_witness :
    (([⟨"http://a/x", "title", "snip", (0, 0)⟩] : List SearchHit).map (·.url)).Nodup :=
  claim_C3_no_duplicate_urls svcOnePage "d" 0 1 _ (by
    rw [search_domain]
    rw [show get_date_ranges 0 1 = [(0, 0)] from by decide]
    rw [searchWindows]
    rw [paginateWindow.eq_def]
    norm_num [search_with_date_range, svcOnePage, itemsToHits, addNewResults,
      max_total_results, max_results_per_page, searchWindows])

/-- C7 counterexample service:  Every request returns a JSON payload whose
single item lacks the `link` and `title` fields. -/
def svcBadItem : Service := fun _ _ _ _ => .payload (some [⟨none, none, none⟩])

/-- C7 counterexample:  A response whose items lack the expected fields is
*not* treated as an empty result: `item['link']` raises a `KeyError` that the
`except requests.exceptions.RequestException` clause does not catch, so the
single malformed request aborts the entire `search_domain` run rather than
only the current window's pagination. -/
theorem claim_C7_counterexample :
    search_with_date_range svcBadItem "d" 0 0 1 = .error "KeyError" ∧
    search_domain svcBadItem "d" 0 1 = .error "KeyError" := by
  constructor
  · rfl
  · rw [search_domain, show get_date_ranges 0 1 = [(0, 0)] from by decide, searchWindows,
      paginateWindow.eq_def]
    norm_num [search_with_date_range, svcBadItem, itemsToHits, max_total_results]

theorem itemsToHits_ok (sd ed : Int) (items : List RawItem)
    (h : ∀ item ∈ items, item.link.isSome ∧ item.title.isSome) :
    ∃ hits, itemsToHits sd ed items = .ok hits := by
  induction items with
  | nil => exact ⟨[], rfl⟩
  | cons item rest ih =>
    obtain ⟨hl, ht⟩ := h item (by simp)
    obtain ⟨link, hlink⟩ := Option.isSome_iff_exists.mp hl
    obtain ⟨title, htitle⟩ := Option.isSome_iff_exists.mp ht
    obtain ⟨hits, hh⟩ := ih (fun it hm => h it (List.mem_cons_of_mem _ hm))
    exact ⟨⟨link, title, item.snippet.getD "", (sd, ed)⟩ :: hits,
      by simp [itemsToHits, hlink, htitle, hh]⟩

theorem search_with_date_range_ok (svc : Service) (domain : String) (sd ed : Int)
    (idx : Nat)
    (hwf : ∀ items, svc domain sd ed idx = .payload (some items) →
      ∀ item ∈ items, item.link.isSome ∧ item.title.isSome) :
    ∃ rs, search_with_date_range svc domain sd ed idx = .ok rs := by
  cases hresp : svc domain sd ed idx with
  | transportError => exact ⟨[], by simp [search_with_date_range, hresp]⟩
  | invalidJson => exact ⟨[], by simp [search_with_date_range, hresp]⟩
  | payload items =>
    cases items with
    | none => exact ⟨[], by simp [search_with_date_range, hresp]⟩
    | some its =>
      obtain ⟨hits, hh⟩ := itemsToHits_ok sd ed its (hwf its hresp)
      exact ⟨hits, by simp [search_with_date_range, hresp, hh]⟩

theorem paginateWindow_ok (svc : Service) (domain : String) (sd ed : Int)
    (hok : ∀ idx, ∃ rs, search_with_date_range svc domain sd ed idx = .ok rs) :
    ∀ start seen acc, ∃ out, paginateWindow svc domain sd ed start seen acc = .ok out := by
  intro start seen acc
  induction start, seen, acc using paginateWindow.induct svc domain sd ed with
  | case1 start seen acc hle e hsearch =>
    obtain ⟨rs, h⟩ := hok start
    rw [h] at hsearch
    cases hsearch
  | case2 start seen acc hle results hsearch hempty =>
    exact ⟨(seen, acc, [start]), by rw [paginateWindow.eq_def]; simp [hle, hsearch, hempty]⟩
  | case3 start seen acc hle results hsearch hempty seen' all' hadd hsmall =>
    exact ⟨(seen', all', [start]),
      by rw [paginateWindow.eq_def]; simp [hle, hsearch, hempty, hadd, hsmall]⟩
  | case4 start seen acc hle results hsearch hempty seen' all' hadd hsmall e hrec ih =>
    obtain ⟨out, h⟩ := ih
    rw [h] at hrec
    cases hrec
  | case5 start seen acc hle results hsearch hempty seen' all' hadd hsmall s'' a'' offs' hrec ih =>
    exact ⟨(s'', a'', start :: offs'),
      by rw [paginateWindow.eq_def]; simp [hle, hsearch, hempty, hadd, hsmall, hrec]⟩
  | case6 start seen acc hle =>
    exact ⟨(seen, acc, []), by rw [paginateWindow.eq_def]; simp [hle]⟩

theorem searchWindows_ok (svc : Service) (domain : String)
    (hok : ∀ sd ed idx, ∃ rs, search_with_date_range svc domain sd ed idx = .ok rs) :
    ∀ ranges seen acc, ∃ out, searchWindows svc domain ranges seen acc = .ok out := by
  intro ranges
  induction ranges with
  | nil => intro seen acc; exact ⟨_, rfl⟩
  | cons r rest ih =>
    intro seen acc
    obtain ⟨sd, ed⟩ := r
    obtain ⟨out, hp⟩ := paginateWindow_ok svc domain sd ed (hok sd ed) 1 seen acc
    obtain ⟨s', a', offs⟩ := out
    obtain ⟨out', hw⟩ := ih s' a'
    exact ⟨out', by simp [searchWindows, hp, hw]⟩

/-- C7 amended:  Transport-level failures — including an invalid-JSON body,
which modern `requests` raises as a `JSONDecodeError` subclassing
`RequestException` — are treated as an empty result for that single request
(and hence abort only the current window's pagination); and as long as the
service's payload items always carry `link` and `title`, `search_domain`
always completes.  (A payload item lacking `link` or `title`, by contrast,
raises an uncaught `KeyError` that aborts the whole run; see the
counterexample.) -/
theorem claim_C7_transport_failures_contained (svc : Service) (domain : String)
    (today : Int) (days_back : Nat)
    (hwf : ∀ sd ed idx items, svc domain sd ed idx = .payload (some items) →
      ∀ item ∈ items, item.link.isSome ∧ item.title.isSome) :
    (∃ hits, search_domain svc domain today days_back = .ok hits) ∧
    (∀ sd ed idx,
      svc domain sd ed idx = .transportError ∨ svc domain sd ed idx = .invalidJson →
      search_with_date_range svc domain sd ed idx = .ok []) := by
  constructor
  · have hok : ∀ sd ed idx, ∃ rs, search_with_date_range svc domain sd ed idx = .ok rs :=
      fun sd ed idx => search_with_date_range_ok svc domain sd ed idx
        (fun items h => hwf sd ed idx items h)
    obtain ⟨out, hw⟩ := searchWindows_ok svc domain hok (get_date_ranges today days_back) [] []
    obtain ⟨s, a⟩ := out
    exact ⟨a, by simp [search_domain, hw]⟩
  · intro sd ed idx h
    rcases h with h | h <;> simp [search_with_date_range, h]

/-- A service that always fails at the transport level, used to witness C7. -/
def svcTransportDown : Service := fun _ _ _ _ => .transportError

/-- C7 witness:  The amended claim applied to the always-failing
transport: the run still completes, every single request yielding the empty
result. -/
theorem claim_C7_witness :
    (∃ hits, search_domain svcTransportDown "d" 0 1 = .ok hits) ∧
    (∀ sd ed idx,
      svcTransportDown "d" sd ed idx = .transportError ∨
        svcTransportDown "d" sd ed idx = .invalidJson →
      search_with_date_range svcTransportDown "d" sd ed idx = .ok []) :=
  claim_C7_transport_failures_contained svcTransportDown "d" 0 1
    (by intro sd ed idx items h; simp [svcTransportDown] at h)

/-- When a window's pagination completes and its starting offset is within the
ceiling, that offset is always in the request trace. -/
theorem paginateWindow_start_mem (svc : Service) (domain : String) (sd ed : Int) :
    ∀ start seen acc s a offs,
      paginateWindow svc domain sd ed start seen acc = .ok (s, a, offs) →
      start ≤ max_total_results → start ∈ offs := by
  intro start seen acc
  induction start, seen, acc using paginateWindow.induct svc domain sd ed with
  | case1 start seen acc hle e hsearch =>
    intro s a offs heq _
    rw [paginateWindow.eq_def] at heq
    simp [hle, hsearch] at heq
  | case2 start seen acc hle results hsearch hempty =>
    intro s a offs heq _
    rw [paginateWindow.eq_def] at heq
    simp [hle, hsearch, hempty] at heq
    obtain ⟨_, _, hoffs⟩ := heq
    simp [← hoffs]
  | case3 start seen acc hle results hsearch hempty seen' all' hadd hsmall =>
    intro s a offs heq _
    rw [paginateWindow.eq_def] at heq
    simp [hle, hsearch, hempty, hadd, hsmall] at heq
    obtain ⟨_, _, hoffs⟩ := heq
    simp [← hoffs]
  | case4 start seen acc hle results hsearch hempty seen' all' hadd hsmall e hrec ih =>
    intro s a offs heq _
    rw [paginateWindow.eq_def] at heq
    simp [hle, hsearch, hempty, hadd, hsmall, hrec] at heq
  | case5 start seen acc hle results hsearch hempty seen' all' hadd hsmall s'' a'' offs' hrec ih =>
    intro s a offs heq _
    rw [paginateWindow.eq_def] at heq
    simp [hle, hsearch, hempty, hadd, hsmall, hrec] at heq
    obtain ⟨_, _, hoffs⟩ := heq
    simp [← hoffs]
  | case6 start seen acc hle =>
    intro s a offs heq hle'
    exact absurd hle' hle

/-- The two boundary properties of a window's request trace: a full page (at
the cap) within the ceiling always triggers one further request at the next
offset, and pagination stops only on an empty page, a short page, or the next
offset exceeding the ceiling. -/
theorem paginateWindow_offsets (svc : Service) (domain : String) (sd ed : Int) :
    ∀ start seen acc s a offs,
      paginateWindow svc domain sd ed start seen acc = .ok (s, a, offs) →
      (∀ o ∈ offs, ∀ rs, search_with_date_range svc domain sd ed o = .ok rs →
        rs.length = max_results_per_page → o + max_results_per_page ≤ max_total_results →
        o + max_results_per_page ∈ offs) ∧
      (∀ o ∈ offs, o + max_results_per_page ∉ offs →
        ∀ rs, search_with_date_range svc domain sd ed o = .ok rs →
        rs.isEmpty ∨ rs.length < max_results_per_page ∨
          max_total_results < o + max_results_per_page) := by
  intro start seen acc
  induction start, seen, acc using paginateWindow.induct svc domain sd ed with
  | case1 start seen acc hle e hsearch =>
    intro s a offs heq
    rw [paginateWindow.eq_def] at heq
    simp [hle, hsearch] at heq
  | case2 start seen acc hle results hsearch hempty =>
    intro s a offs heq
    rw [paginateWindow.eq_def] at heq
    simp [hle, hsearch, hempty] at heq
    obtain ⟨_, _, hoffs⟩ := heq
    subst hoffs
    constructor
    · intro o ho rs hrs hlen _
      have : o = start := by simpa using ho
      subst this
      rw [hsearch] at hrs
      cases hrs
      have : results.length = 0 := List.isEmpty_iff_length_eq_zero.mp hempty
      rw [hlen] at this
      simp [max_results_per_page] at this
    · intro o ho _ rs hrs
      have : o = start := by simpa using ho
      subst this
      rw [hsearch] at hrs
      cases hrs
      exact .inl hempty
  | case3 start seen acc hle results hsearch hempty seen' all' hadd hsmall =>
    intro s a offs heq
    rw [paginateWindow.eq_def] at heq
    simp [hle, hsearch, hempty, hadd, hsmall] at heq
    obtain ⟨_, _, hoffs⟩ := heq
    subst hoffs
    constructor
    · intro o ho rs hrs hlen _
      have : o = start := by simpa using ho
      subst this
      rw [hsearch] at hrs
      cases hrs
      rw [hlen] at hsmall
      exact absurd hsmall (by simp)
    · intro o ho _ rs hrs
      have : o = start := by simpa using ho
      subst this
      rw [hsearch] at hrs
      cases hrs
      exact .inr (.inl hsmall)
  | case4 start seen acc hle results hsearch hempty seen' all' hadd hsmall e hrec ih =>
    intro s a offs heq
    rw [paginateWindow.eq_def] at heq
    simp [hle, hsearch, hempty, hadd, hsmall, hrec] at heq
  | case5 start seen acc hle results hsearch hempty seen' all' hadd hsmall s'' a'' offs' hrec ih =>
    intro s a offs heq
    rw [paginateWindow.eq_def] at heq
    simp [hle, hsearch, hempty, hadd, hsmall, hrec] at heq
    obtain ⟨_, _, hoffs⟩ := heq
    subst hoffs
    obtain ⟨ih1, ih2⟩ := ih s'' a'' offs' hrec
    constructor
    · intro o ho rs hrs hlen hceil
      rcases List.mem_cons.mp ho with rfl | ho'
      · have : o + max_results_per_page ∈ offs' :=
          paginateWindow_start_mem svc domain sd ed _ seen' all' s'' a'' offs' hrec hceil
        exact List.mem_cons_of_mem _ this
      · exact List.mem_cons_of_mem _ (ih1 o ho' rs hrs hlen hceil)
    · intro o ho hnot rs hrs
      rcases List.mem_cons.mp ho with rfl | ho'
      · by_cases hceil : o + max_results_per_page ≤ max_total_results
        · exact absurd
            (List.mem_cons_of_mem _
              (paginateWindow_start_mem svc domain sd ed _ seen' all' s'' a'' offs' hrec hceil))
            hnot
        · exact .inr (.inr (by omega))
      · exact ih2 o ho' (fun hmem => hnot (List.mem_cons_of_mem _ hmem)) rs hrs
  | case6 start seen acc hle =>
    intro s a offs heq
    rw [paginateWindow.eq_def] at heq
    simp [hle] at heq
    obtain ⟨_, _, hoffs⟩ := heq
    subst hoffs
    constructor
    · intro o ho; simp at ho
    · intro o ho; simp at ho

/-- C8: When a page request of a window returns exactly the page-size cap
(`max_results_per_page = 10`), the planner does not conclude the window is
exhausted: it issues one more request at the next offset, stopping only when a
page is empty, strictly smaller than the cap, or the next offset would exceed
the per-query ceiling (`max_total_results = 100`). -/
theorem claim_C8_cap_boundary (svc : Service) (domain : String) (sd ed : Int)
    (seen s : List String) (acc a : List SearchHit) (offs : List Nat)
    (h : paginateWindow svc domain sd ed 1 seen acc = .ok (s, a, offs)) :
    (∀ o ∈ offs, ∀ rs, search_with_date_range svc domain sd ed o = .ok rs →
      rs.length = max_results_per_page → o + max_results_per_page ≤ max_total_results →
      o + max_results_per_page ∈ offs) ∧
    (∀ o ∈ offs, o + max_results_per_page ∉ offs →
      ∀ rs, search_with_date_range svc domain sd ed o = .ok rs →
      rs.isEmpty ∨ rs.length < max_results_per_page ∨
        max_total_results < o + max_results_per_page) :=
  paginateWindow_offsets svc domain sd ed 1 seen acc s a offs h

/-- A service returning an empty payload for every request, used to witness
C8. -/
def svcNoItems : Service := fun _ _ _ _ => .payload none

/-- C8 witness:  The claim applied to the concrete one-request trace
`offs = [1]` produced by `svcNoItems`. -/
theorem claim_C8_witness :
    (∀ o ∈ [1], ∀ rs, search_with_date_range svcNoItems "d" 0 0 o = .ok rs →
      rs.length = max_results_per_page → o + max_results_per_page ≤ max_total_results →
      o + max_results_per_page ∈ [1]) ∧
    (∀ o ∈ [1], o + max_results_per_page ∉ [1] →
      ∀ rs, search_with_date_range svcNoItems "d" 0 0 o = .ok rs →
      rs.isEmpty ∨ rs.length < max_results_per_page ∨
        max_total_results < o + max_results_per_page) :=
  claim_C8_cap_boundary svcNoItems "d" 0 0 [] [] [] [] [1] (by
    rw [paginateWindow.eq_def]
    norm_num [search_with_date_range, svcNoItems, max_total_results])

/-- Number of persisted records matching the `(url, email)` natural key. -/
def keyCount (store : List ContactRecord) (url email : String) : Nat :=
  store.countP (fun r => decide (r.url = url ∧ r.email = email))

theorem keyCount_nil (u e : String) : keyCount [] u e = 0 := rfl

theorem keyCount_cons (r : ContactRecord) (rs : List ContactRecord) (u e : String) :
    keyCount (r :: rs) u e = (if r.url = u ∧ r.email = e then 1 else 0) + keyCount rs u e := by
  by_cases hm : r.url = u ∧ r.email = e <;>
    simp [keyCount, List.countP_cons, hm]
  all_goals omega

theorem update_one_upsert_count_self (u e : String) (t : Int) :
    ∀ st : List ContactRecord,
      keyCount st u e ≤ 1 → keyCount (update_one_upsert st u e t) u e = 1 := by
  intro st
  induction st with
  | nil => intro _; simp [update_one_upsert, keyCount_cons, keyCount_nil]
  | cons r rs ih =>
    intro hle
    rw [keyCount_cons] at hle
    by_cases hm : r.url = u ∧ r.email = e
    · rw [show update_one_upsert (r :: rs) u e t = ⟨u, e, t⟩ :: rs from by
        simp [update_one_upsert, hm]]
      rw [if_pos hm] at hle
      rw [keyCount_cons, if_pos ⟨rfl, rfl⟩]
      omega
    · rw [show update_one_upsert (r :: rs) u e t = r :: update_one_upsert rs u e t from by
        simp [update_one_upsert, hm]]
      rw [if_neg hm] at hle
      rw [keyCount_cons, if_neg hm, ih (by omega)]

theorem update_one_upsert_count_other (u e u' e' : String) (t : Int)
    (hne : ¬(u = u' ∧ e = e')) :
    ∀ st : List ContactRecord,
      keyCount (update_one_upsert st u e t) u' e' = keyCount st u' e' := by
  intro st
  induction st with
  | nil =>
    show keyCount [⟨u, e, t⟩] u' e' = keyCount [] u' e'
    rw [keyCount_cons, keyCount_nil, if_neg hne]
  | cons r rs ih =>
    by_cases hm : r.url = u ∧ r.email = e
    · rw [show update_one_upsert (r :: rs) u e t = ⟨u, e, t⟩ :: rs from by
        simp [update_one_upsert, hm]]
      rw [keyCount_cons, keyCount_cons, if_neg hne, if_neg (by
        intro ⟨h1, h2⟩
        exact hne ⟨hm.1 ▸ h1, hm.2 ▸ h2⟩)]
    · rw [show update_one_upsert (r :: rs) u e t = r :: update_one_upsert rs u e t from by
        simp [update_one_upsert, hm]]
      rw [keyCount_cons, keyCount_cons, ih]

theorem update_one_upsert_stamp_self (u e : String) (t : Int) :
    ∀ st : List ContactRecord, keyCount st u e ≤ 1 →
      ∀ r ∈ update_one_upsert st u e t, r.url = u → r.email = e → r.crawled_at = t := by
  intro st
  induction st with
  | nil =>
    intro _ r hr _ _
    have : r = ⟨u, e, t⟩ := by simpa [update_one_upsert] using hr
    rw [this]
  | cons rr rs ih =>
    intro hle r hr hu he
    rw [keyCount_cons] at hle
    by_cases hm : rr.url = u ∧ rr.email = e
    · rw [if_pos hm] at hle
      rw [show update_one_upsert (rr :: rs) u e t = ⟨u, e, t⟩ :: rs from by
        simp [update_one_upsert, hm]] at hr
      rcases List.mem_cons.mp hr with rfl | hr'
      · rfl
      · have h0 : keyCount rs u e = 0 := by omega
        have := List.countP_eq_zero.mp h0 r hr'
        simp [hu, he] at this
    · rw [if_neg hm] at hle
      rw [show update_one_upsert (rr :: rs) u e t = rr :: update_one_upsert rs u e t from by
        simp [update_one_upsert, hm]] at hr
      rcases List.mem_cons.mp hr with rfl | hr'
      · exact absurd ⟨hu, he⟩ hm
      · exact ih (by omega) r hr' hu he

theorem update_one_upsert_stamp_other (u e u' e' : String) (t t' : Int)
    (hne : ¬(u = u' ∧ e = e')) :
    ∀ st : List ContactRecord,
      (∀ r ∈ st, r.url = u' → r.email = e' → r.crawled_at = t') →
      ∀ r ∈ update_one_upsert st u e t, r.url = u' → r.email = e' → r.crawled_at = t' := by
  intro st
  induction st with
  | nil =>
    intro _ r hr hu he
    have : r = ⟨u, e, t⟩ := by simpa [update_one_upsert] using hr
    rw [this] at hu he
    exact absurd ⟨hu, he⟩ hne
  | cons rr rs ih =>
    intro hst r hr hu he
    by_cases hm : rr.url = u ∧ rr.email = e
    · rw [show update_one_upsert (rr :: rs) u e t = ⟨u, e, t⟩ :: rs from by
        simp [update_one_upsert, hm]] at hr
      rcases List.mem_cons.mp hr with rfl | hr'
      · exact absurd ⟨hu, he⟩ hne
      · exact hst r (List.mem_cons_of_mem _ hr') hu he
    · rw [show update_one_upsert (rr :: rs) u e t = rr :: update_one_upsert rs u e t from by
        simp [update_one_upsert, hm]] at hr
      rcases List.mem_cons.mp hr with rfl | hr'
      · exact hst r (List.mem_cons_self ..) hu he
      · exact ih (fun x hx => hst x (List.mem_cons_of_mem _ hx)) r hr' hu he

theorem update_one_upsert_clean (u e : String) (t : Int) (st : List ContactRecord)
    (hclean : ∀ e', keyCount st u e' ≤ 1) :
    ∀ e', keyCount (update_one_upsert st u e t) u e' ≤ 1 := by
  intro e'
  by_cases he : e = e'
  · subst he
    rw [update_one_upsert_count_self u e t st (hclean e)]
  · rw [update_one_upsert_count_other u e u e' t (fun h => he h.2) st]
    exact hclean e'

theorem foldUpsert_clean (u : String) (t : Int) (es : List String) :
    ∀ st : List ContactRecord, (∀ e', keyCount st u e' ≤ 1) →
      ∀ e', keyCount (es.foldl (fun s e => update_one_upsert s u e t) st) u e' ≤ 1 := by
  induction es with
  | nil => intro st h; exact h
  | cons a es ih =>
    intro st h
    rw [List.foldl_cons]
    exact ih _ (update_one_upsert_clean u a t st h)

theorem foldUpsert_keeps (u : String) (t : Int) (es : List String) :
    ∀ (st : List ContactRecord) (e : String), (∀ e', keyCount st u e' ≤ 1) →
      keyCount st u e = 1 →
      (∀ r ∈ st, r.url = u → r.email = e → r.crawled_at = t) →
      keyCount (es.foldl (fun s e => update_one_upsert s u e t) st) u e = 1 ∧
      ∀ r ∈ es.foldl (fun s e => update_one_upsert s u e t) st,
        r.url = u → r.email = e → r.crawled_at = t := by
  induction es with
  | nil => intro st e _ h1 h2; exact ⟨h1, h2⟩
  | cons a es ih =>
    intro st e hclean h1 h2
    rw [List.foldl_cons]
    by_cases ha : a = e
    · subst ha
      exact ih _ a (update_one_upsert_clean u a t st hclean)
        (update_one_upsert_count_self u a t st (hclean a))
        (update_one_upsert_stamp_self u a t st (hclean a))
    · have hne : ¬(u = u ∧ a = e) := fun h => ha h.2
      exact ih _ e (update_one_upsert_clean u a t st hclean)
        (by rw [update_one_upsert_count_other u a u e t hne st]; exact h1)
        (update_one_upsert_stamp_other u a u e t t hne st h2)

theorem foldUpsert_mem (u : String) (t : Int) (es : List String) :
    ∀ st : List ContactRecord, (∀ e', keyCount st u e' ≤ 1) →
      ∀ e ∈ es,
        keyCount (es.foldl (fun s e => update_one_upsert s u e t) st) u e = 1 ∧
        ∀ r ∈ es.foldl (fun s e => update_one_upsert s u e t) st,
          r.url = u → r.email = e → r.crawled_at = t := by
  induction es with
  | nil => intro st _ e he; simp at he
  | cons a es ih =>
    intro st hclean e he
    rw [List.foldl_cons]
    by_cases hes : e ∈ es
    · exact ih _ (update_one_upsert_clean u a t st hclean) e hes
    · have ha : e = a := by
        rcases List.mem_cons.mp he with h | h
        · exact h
        · exact absurd h hes
      subst ha
      exact foldUpsert_keeps u t es _ e (update_one_upsert_clean u e t st hclean)
        (update_one_upsert_count_self u e t st (hclean e))
        (update_one_upsert_stamp_self u e t st (hclean e))

/-- C9: Calling `save_result` twice with the same `(url, CrawlResult)`
whose `error` is unset and `emails` non-empty leaves exactly one persisted
`ContactRecord` per distinct `(url, email)` pair, every such record stamped
with the time of the most recent call: repeated saves create no duplicates
and last write wins on the timestamp. -/
theorem claim_C9_save_idempotent (store : List ContactRecord) (result : ProcessedResult)
    (t1 t2 : Int)
    (herr : result.crawl_result.error = none)
    (hne : result.crawl_result.emails ≠ [])
    (hclean : ∀ e, keyCount store result.url e ≤ 1) :
    ∀ e ∈ result.crawl_result.emails,
      keyCount (save_result (save_result store result t1) result t2) result.url e = 1 ∧
      ∀ r ∈ save_result (save_result store result t1) result t2,
        r.url = result.url → r.email = e → r.crawled_at = t2 := by
  have hcond : ¬(result.crawl_result.error.isSome ∨ result.crawl_result.emails = []) := by
    simp [herr, hne]
  rw [save_result, if_neg hcond, save_result, if_neg hcond]
  exact foldUpsert_mem result.url t2 result.crawl_result.emails _
    (foldUpsert_clean result.url t1 result.crawl_result.emails store hclean)

/-- The concrete save payload used to witness C9. -/
def sampleSave : ProcessedResult :=
  ⟨"http://acme.test", ⟨"http://acme.test", ["hello@acme.test"], none, some []⟩⟩

/-- C9 witness:  Saving `sampleSave` twice into an empty store leaves
exactly one record for the `(url, email)` pair, stamped with the second
call's time. -/
theorem claim_C9_witness :
    keyCount (save_result (save_result [] sampleSave 1) sampleSave 2)
      sampleSave.url "hello@acme.test" = 1 ∧
    ∀ r ∈ save_result (save_result [] sampleSave 1) sampleSave 2,
      r.url = sampleSave.url → r.email = "hello@acme.test" → r.crawled_at = 2 :=
  claim_C9_save_idempotent [] sampleSave 1 2 rfl (by decide)
    (by intro e; simp [keyCount]) "hello@acme.test" (by decide)

end Crawler
